import Mathlib

/-!
Verification of `abswt/elements.py`: the brace-placeholder parameter
extractor (`ParameterExtractor`), locator resolution (`Locator.get_by`),
and the fluent finder's timeout/condition selection (`FluentFinder`).

Python strings are modelled as `List Char`; Python's `str.find` is
modelled by `pyFind` (returning -1 for absence, as in Python), slices by
`pySlice`, and exceptions by `Except` results.  The `while` loop of
`get_parameters` is modelled with an explicit fuel argument; fuel
`text.length + 1` is provably sufficient (the loop's scan position
strictly increases each round), which is established by the fuel
irrelevance lemma below.
-/

/-- first index `i` at or after `start` with the character `c`, the search
underlying Python's `str.find`. -/
def findIdxFrom (c : Char) : List Char → Nat → Option Nat
  | [], _ => none
  | x :: xs, 0 => if x = c then some 0 else (findIdxFrom c xs 0).map (fun i => i + 1)
  | _ :: xs, k + 1 => (findIdxFrom c xs k).map (fun i => i + 1)

/-- Python `text.find(c, start)`: lowest index at or after `start` holding
`c`, or `-1` when there is none. -/
def pyFind (s : List Char) (c : Char) (start : Nat) : Int :=
  match findIdxFrom c s start with
  | some i => (i : Int)
  | none => -1

/-- Python slice `s[a:b]` for nonnegative bounds. -/
def pySlice (s : List Char) (a b : Nat) : List Char :=
  (s.take b).drop a

/-- `ParameterExtractor.__find_param(start_index)` (elements.py lines 38-46):
`open = text.find('{', start_index)`, `close = text.find('}', start_index + 1)`;
return `(None, -1)` if either is absent or `open > close`, else the substring
`text[open + 1 : close]` paired with `close`. -/
def find_param (text : List Char) (start_index : Nat) : Option (List Char) × Int :=
  let openIdx : Int := pyFind text '{' start_index
  let close : Int := pyFind text '}' (start_index + 1)
  if openIdx = -1 ∨ close = -1 then (none, -1)
  else if openIdx > close then (none, -1)
  else (some (pySlice text (openIdx.toNat + 1) close.toNat), close)

/-- while-loop of `ParameterExtractor.get_parameters` (elements.py lines 29-36):
starting from `start_index`, repeatedly call `find_param`, appending each
found name and continuing from the returned index.  `fuel` bounds the number
of rounds; `get_parameters_loop_fuel` below shows any fuel of at least
`text.length + 1 - start_index` gives the same (loop-exit) result. -/
def get_parameters_loop (text : List Char) : Nat → Nat → List (List Char)
  | 0, _ => []
  | fuel + 1, start_index =>
    match find_param text start_index with
    | (some param, last_index) =>
      if last_index > -1 then
        param :: get_parameters_loop text fuel last_index.toNat
      else []
    | (none, _) => []

/-- `ParameterExtractor.get_parameters()`: run the scan loop from index 0. -/
def get_parameters (text : List Char) : List (List Char) :=
  get_parameters_loop text (text.length + 1) 0

/-- Modelled from the spec's words for claim C1 (refinement comparison only;
the source-faithful definition is `get_parameters`): repeatedly locate the
next opening brace at or after a cursor and the next closing brace after the
cursor; if either is absent, or the closing brace precedes the opening brace,
stop; otherwise emit the substring between them and advance the cursor to
just past the closing brace. -/
def spec_scan (text : List Char) : Nat → Nat → List (List Char)
  | 0, _ => []
  | fuel + 1, cursor =>
    match findIdxFrom '{' text cursor, findIdxFrom '}' text (cursor + 1) with
    | some o, some cl =>
      if cl < o then [] else pySlice text (o + 1) cl :: spec_scan text fuel (cl + 1)
    | _, _ => []

/-- Modelled from the spec's words for claim C1, run from cursor 0. -/
def spec_extract (text : List Char) : List (List Char) :=
  spec_scan text (text.length + 1) 0

/-- amended form of the spec's C1 algorithm: identical to `spec_scan` except
that after emitting a name the cursor advances to the position of the closing
brace itself (not just past it); the next round then seeks an opening brace at
or after the cursor and a closing brace strictly after it. -/
def amended_scan (text : List Char) : Nat → Nat → List (List Char)
  | 0, _ => []
  | fuel + 1, cursor =>
    match findIdxFrom '{' text cursor, findIdxFrom '}' text (cursor + 1) with
    | some o, some cl =>
      if cl < o then [] else pySlice text (o + 1) cl :: amended_scan text fuel cl
    | _, _ => []

/-- amended C1 algorithm run from cursor 0. -/
def amended_extract (text : List Char) : List (List Char) :=
  amended_scan text (text.length + 1) 0

deriving instance DecidableEq for Except

/-- splits a replacement field: the characters before the first closing brace,
and the remainder after it.  Returns `none` (an error in `pyFormat`) when an
opening brace appears first or the string ends without a closing brace,
matching CPython's field parsing errors. -/
def splitField : List Char → Option (List Char × List Char)
  | [] => none
  | c :: rest =>
    if c = '}' then some ([], rest)
    else if c = '{' then none
    else (splitField rest).map (fun p => (c :: p.1, p.2))

/-- characters that make a replacement field more than a plain keyword lookup
in CPython's format mini-language (conversion, format spec, attribute or
index access). -/
def fieldExtras : List Char := [':', '!', '.', '[', ']']

/-- a field content that CPython's `str.format` treats as a single keyword
lookup: nonempty, ASCII, free of conversion/spec/attribute/index syntax, and
not made of digits only — CPython parses an all-digit arg name as a
positional index, never a keyword (non-ASCII names, whose decimal status
follows Unicode rules, are left outside the modelled fragment). -/
def fieldSimple (content : List Char) : Bool :=
  !content.isEmpty &&
    content.all (fun c => !(fieldExtras.contains c) && decide (c.toNat < 128)) &&
    !(content.all (fun c => c.isDigit))

/-- errors raised by CPython's `str.format` (all surface as exceptions).
`indexError` is the IndexError raised when a field name that is empty
(auto-numbering) or all digits (an explicit positional index) is used with
keyword-only arguments.  `unmodelled` marks the parts of the format
mini-language outside the modelled fragment (conversions, format specs,
attribute and index access, non-ASCII names); no theorem below depends on
those branches. -/
inductive PyFormatError
  | singleRbrace
  | badField
  | keyError (key : List Char)
  | indexError
  | unmodelled
deriving DecidableEq

/-- the scan of CPython's `str.format` with keyword arguments, restricted to
the fragment this repository exercises: doubled braces are literal braces, a
lone closing brace raises, an opening brace starts a replacement field.  A
field name that is empty (auto-numbering) or all digits is a positional
reference, which raises IndexError when only keyword arguments are supplied;
a plain keyword name is looked up in `kw` and its value spliced in verbatim.
`fuel` bounds the number of scanned items; each step consumes at least one
character, so `s.length + 1` suffices. -/
def pyFormatGo (kw : List (List Char × List Char)) : Nat → List Char → Except PyFormatError (List Char)
  | _, [] => Except.ok []
  | 0, _ :: _ => Except.error PyFormatError.unmodelled
  | fuel + 1, c :: rest =>
    if c = '{' then
      if rest.head? = some '{' then
        Except.map (fun t => '{' :: t) (pyFormatGo kw fuel rest.tail)
      else
        match splitField rest with
        | none => Except.error PyFormatError.badField
        | some (content, r) =>
          if content.all (fun c => c.isDigit) then Except.error PyFormatError.indexError
          else if fieldSimple content then
            match List.lookup content kw with
            | some v => Except.map (fun t => v ++ t) (pyFormatGo kw fuel r)
            | none => Except.error (PyFormatError.keyError content)
          else Except.error PyFormatError.unmodelled
    else if c = '}' then
      if rest.head? = some '}' then
        Except.map (fun t => '}' :: t) (pyFormatGo kw fuel rest.tail)
      else Except.error PyFormatError.singleRbrace
    else Except.map (fun t => c :: t) (pyFormatGo kw fuel rest)

/-- Python `s.format(**kw)` on the modelled fragment. -/
def pyFormat (s : List Char) (kw : List (List Char × List Char)) : Except PyFormatError (List Char) :=
  pyFormatGo kw (s.length + 1) s

/-- the `Using` enum (elements.py lines 12-21), with the selenium `By`
string values. -/
inductive Using
  | ID
  | NAME
  | XPATH
  | CLASS
  | CSS
  | TAG_NAME
  | LINK_TEXT
  | PARTIAL_LINK_TEXT
deriving DecidableEq

/-- the `.value` of each `Using` member (its Python enum string). -/
def Using.value : Using → List Char
  | .ID => ['i', 'd']
  | .NAME => ['n', 'a', 'm', 'e']
  | .XPATH => ['x', 'p', 'a', 't', 'h']
  | .CLASS => ['c', 'l', 'a', 's', 's', ' ', 'n', 'a', 'm', 'e']
  | .CSS => ['c', 's', 's', ' ', 's', 'e', 'l', 'e', 'c', 't', 'o', 'r']
  | .TAG_NAME => ['t', 'a', 'g', ' ', 'n', 'a', 'm', 'e']
  | .LINK_TEXT => ['l', 'i', 'n', 'k', ' ', 't', 'e', 'x', 't']
  | .PARTIAL_LINK_TEXT => ['p', 'a', 'r', 't', 'i', 'a', 'l', ' ', 'l', 'i', 'n', 'k', ' ', 't', 'e', 'x', 't']

/-- a `Locator` (elements.py lines 49-117): a strategy (the Python attribute
is named `using`; that word is reserved in Lean) together with a value
template.  The default `ParameterExtractor(self.value)` is modelled (no
caller in the repository injects a custom extractor). -/
structure Locator where
  strategy : Using
  value : List Char
deriving DecidableEq

/-- errors raised by `get_by`: the two locally raised `ValueError`s, carrying
exactly the data their messages interpolate, and the exceptions propagated
from `str.format`. -/
inductive GetByError
  | missingArguments (params : List (List Char))
  | missingArgument (param : List Char)
  | formatError (e : PyFormatError)
deriving DecidableEq

/-- `Locator.parameters`: the extractor's result on the value template. -/
def Locator.parameters (l : Locator) : List (List Char) :=
  get_parameters l.value

/-- `Locator.is_parameterized`: `len(self.parameters) > 0`. -/
def Locator.is_parameterized (l : Locator) : Bool :=
  decide (0 < l.parameters.length)

/-- `Locator.__validate_parameters` (elements.py lines 114-117): the loop
raises at the first extracted parameter missing from the keyword arguments;
modelled as the first such parameter, `none` when validation passes.
Membership `param not in kwargs.keys()` is `(List.lookup param kw).isNone`
on the association-list model of the kwargs dict. -/
def Locator.validate_parameters (l : Locator) (kw : List (List Char × List Char)) : Option (List Char) :=
  l.parameters.find? (fun param => (List.lookup param kw).isNone)

/-- `Locator.__parameterize_value` (elements.py lines 109-112): raise when no
keyword arguments were given, else validate, else `self.value.format(**kwargs)`. -/
def Locator.parameterize_value (l : Locator) (kw : List (List Char × List Char)) : Except GetByError (List Char) :=
  if kw.length = 0 then Except.error (GetByError.missingArguments l.parameters)
  else
    match l.validate_parameters kw with
    | some param => Except.error (GetByError.missingArgument param)
    | none => Except.mapError GetByError.formatError (pyFormat l.value kw)

/-- `Locator.__get_value` (elements.py lines 103-106). -/
def Locator.get_value (l : Locator) (kw : List (List Char × List Char)) : Except GetByError (List Char) :=
  if l.is_parameterized then l.parameterize_value kw else Except.ok l.value

/-- `Locator.get_by` (elements.py lines 99-101): the `(by, value)` tuple, or
the exception raised while computing the value. -/
def Locator.get_by (l : Locator) (kw : List (List Char × List Char)) : Except GetByError (List Char × List Char) :=
  Except.map (fun v => (l.strategy.value, v)) (l.get_value kw)

/-- a piece of a well-formed locator template: a literal character or a
brace-delimited placeholder field. -/
inductive Chunk
  | lit (c : Char)
  | field (name : List Char)
deriving DecidableEq

/-- the template string denoted by a chunk list: fields are rendered with
their surrounding braces. -/
def renderChunks : List Chunk → List Char
  | [] => []
  | Chunk.lit c :: ks => c :: renderChunks ks
  | Chunk.field n :: ks => '{' :: (n ++ '}' :: renderChunks ks)

/-- the placeholder names of a chunk list, in order, with multiplicity. -/
def fieldNames : List Chunk → List (List Char)
  | [] => []
  | Chunk.lit _ :: ks => fieldNames ks
  | Chunk.field n :: ks => n :: fieldNames ks

/-- the spec's notion of resolution: each placeholder occurrence literally
replaced by the corresponding keyword value, literal characters unchanged. -/
def substChunks (kw : List (List Char × List Char)) : List Chunk → List Char
  | [] => []
  | Chunk.lit c :: ks => c :: substChunks kw ks
  | Chunk.field n :: ks => ((List.lookup n kw).getD []) ++ substChunks kw ks

/-- characters that may not appear in a well-formed placeholder name:
braces, plus the format mini-language syntax of `fieldExtras`. -/
def nameForbidden : List Char := ['{', '}', ':', '!', '.', '[', ']']

/-- a well-formed chunk: a literal that is not a brace, or a field whose name
is nonempty and free of braces and format mini-language syntax. -/
def goodChunk : Chunk → Bool
  | Chunk.lit c => !(c = '{' || c = '}')
  | Chunk.field n => !n.isEmpty && n.all (fun c => !(nameForbidden.contains c))

/-- a well-formed template decomposition: all chunks well-formed. -/
def goodChunks (ks : List Chunk) : Bool :=
  ks.all goodChunk

/-- a chunk whose field is additionally usable as a keyword replacement
field for `str.format`: on top of `goodChunk`, the name is ASCII and not
made of digits only — CPython parses an all-digit (or empty) field name as
a positional index, which raises IndexError when only keyword arguments are
supplied. -/
def namedChunk : Chunk → Bool
  | Chunk.lit c => goodChunk (Chunk.lit c)
  | Chunk.field n =>
    goodChunk (Chunk.field n) && n.all (fun c => decide (c.toNat < 128)) &&
      !(n.all (fun c => c.isDigit))

/-- a template decomposition whose fields are all keyword-addressable. -/
def namedChunks (ks : List Chunk) : Bool :=
  ks.all namedChunk

/-- the success conditions of `selenium.webdriver.support.expected_conditions`
used by `FluentFinder`; `custom` stands for any other condition object a
caller may supply. -/
inductive ECCondition
  | presence_of_element_located
  | presence_of_all_elements_located
  | custom (tag : Nat)
deriving DecidableEq

/-- the `WebDriverWait(self.webdriver, t).until(c(locator_tuple))` call a
finder method performs, recorded by its effective timeout, condition and
locator tuple (the wait itself is external selenium behaviour). -/
structure WDWaitCall where
  timeout : Int
  condition : ECCondition
  locator_tuple : List Char × List Char
deriving DecidableEq

/-- `FluentFinder` (elements.py lines 148-176): the only per-instance state
the modelled methods read is `default_timeout`; the webdriver handle is
external and never examined. -/
structure FluentFinder where
  default_timeout : Int
deriving DecidableEq

/-- class attribute `default_single_condition = EC.presence_of_element_located`. -/
def FluentFinder.default_single_condition : ECCondition :=
  ECCondition.presence_of_element_located

/-- class attribute `default_multi_condition = EC.presence_of_all_elements_located`. -/
def FluentFinder.default_multi_condition : ECCondition :=
  ECCondition.presence_of_all_elements_located

/-- `FluentFinder.find_element` (elements.py lines 166-170), modelled by the
wait call it performs.  `t = timeout if timeout else self.default_timeout`
uses Python truthiness: both `None` (not supplied, `none` here) and `0` are
falsy, so the default replaces them; condition objects are always truthy, so
a supplied condition is always used. -/
def FluentFinder.find_element (f : FluentFinder) (locator_tuple : List Char × List Char)
    (timeout : Option Int) (condition : Option ECCondition) : WDWaitCall :=
  let t : Int :=
    match timeout with
    | some x => if x = 0 then f.default_timeout else x
    | none => f.default_timeout
  let c : ECCondition :=
    match condition with
    | some c => c
    | none => FluentFinder.default_single_condition
  { timeout := t, condition := c, locator_tuple := locator_tuple }

/-- `FluentFinder.find_elements` (elements.py lines 172-176): as
`find_element` but with the multi-element default condition. -/
def FluentFinder.find_elements (f : FluentFinder) (locator_tuple : List Char × List Char)
    (timeout : Option Int) (condition : Option ECCondition) : WDWaitCall :=
  let t : Int :=
    match timeout with
    | some x => if x = 0 then f.default_timeout else x
    | none => f.default_timeout
  let c : ECCondition :=
    match condition with
    | some c => c
    | none => FluentFinder.default_multi_condition
  { timeout := t, condition := c, locator_tuple := locator_tuple }

theorem findIdxFrom_some_ge {c : Char} {s : List Char} :
    ∀ {k i : Nat}, findIdxFrom c s k = some i → k ≤ i := by
  induction s with
  | nil => intro k i h; simp [findIdxFrom] at h
  | cons x xs ih =>
    intro k i h
    cases k with
    | zero => exact Nat.zero_le i
    | succ k =>
      simp only [findIdxFrom] at h
      rcases Option.map_eq_some'.mp h with ⟨j, hj, rfl⟩
      have := ih hj
      omega

theorem findIdxFrom_none_of_len {c : Char} {s : List Char} :
    ∀ {k : Nat}, s.length ≤ k → findIdxFrom c s k = none := by
  induction s with
  | nil => intro k _; rfl
  | cons x xs ih =>
    intro k hk
    cases k with
    | zero => simp [List.length_cons] at hk
    | succ k =>
      simp only [findIdxFrom]
      rw [ih (by simp [List.length_cons] at hk; omega)]
      rfl

theorem findIdxFrom_not_mem {c : Char} {s : List Char} (hc : c ∉ s) :
    ∀ k, findIdxFrom c s k = none := by
  induction s with
  | nil => intro _; rfl
  | cons x xs ih =>
    intro k
    have hx : ¬(x = c) := fun h => hc (h ▸ List.mem_cons_self x xs)
    have hxs : c ∉ xs := fun h => hc (List.mem_cons_of_mem x h)
    cases k with
    | zero => simp only [findIdxFrom, if_neg hx, ih hxs 0]; rfl
    | succ k => simp only [findIdxFrom, ih hxs k]; rfl

theorem findIdxFrom_append_shift {c : Char} (b : List Char) :
    ∀ (a : List Char) (k : Nat),
      findIdxFrom c (a ++ b) (a.length + k) =
        (findIdxFrom c b k).map (fun i => a.length + i) := by
  intro a
  induction a with
  | nil =>
    intro k
    simp only [List.nil_append, List.length_nil, Nat.zero_add]
    cases h : findIdxFrom c b k <;> simp
  | cons x a ih =>
    intro k
    rw [List.cons_append, show (x :: a).length + k = (a.length + k) + 1 by
      simp [List.length_cons]; omega]
    simp only [findIdxFrom]
    rw [ih k]
    cases h : findIdxFrom c b k
    · simp
    · simp [List.length_cons]
      omega

theorem findIdxFrom_head_skip {c : Char} {s : List Char} (h : s.head? ≠ some c) :
    findIdxFrom c s 0 = findIdxFrom c s 1 := by
  cases s with
  | nil => rfl
  | cons x xs =>
    have hx : ¬(x = c) := by
      intro hxc
      exact h (by simp [List.head?, hxc])
    show (if x = c then some 0 else (findIdxFrom c xs 0).map (fun i => i + 1)) =
      (findIdxFrom c xs 0).map (fun i => i + 1)
    rw [if_neg hx]

theorem findIdxFrom_run {c : Char} {r : List Char} :
    ∀ {n : List Char}, (∀ x ∈ n, ¬(x = c)) →
      findIdxFrom c (n ++ c :: r) 0 = some n.length := by
  intro n
  induction n with
  | nil => intro _; simp [findIdxFrom]
  | cons x n ih =>
    intro h
    have hx : ¬(x = c) := h x (List.mem_cons_self x n)
    rw [List.cons_append]
    show (if x = c then some 0
        else (findIdxFrom c (n ++ c :: r) 0).map (fun i => i + 1)) = some (x :: n).length
    rw [if_neg hx, ih (fun y hy => h y (List.mem_cons_of_mem x hy))]
    simp [List.length_cons]

theorem take_len_append (n m : List Char) : (n ++ m).take n.length = n := by
  induction n with
  | nil => rfl
  | cons x n ih => simp [List.take_succ_cons, ih]

theorem pySlice_cons_succ (x : Char) (s : List Char) (a b : Nat) :
    pySlice (x :: s) (a + 1) (b + 1) = pySlice s a b := by
  simp [pySlice, List.take_succ_cons, List.drop_succ_cons]

theorem pySlice_append_shift (b : List Char) :
    ∀ (a : List Char) (i j : Nat),
      pySlice (a ++ b) (a.length + i) (a.length + j) = pySlice b i j := by
  intro a
  induction a with
  | nil => intro i j; simp
  | cons x a ih =>
    intro i j
    rw [List.cons_append,
      show (x :: a).length + i = (a.length + i) + 1 by simp [List.length_cons]; omega,
      show (x :: a).length + j = (a.length + j) + 1 by simp [List.length_cons]; omega,
      pySlice_cons_succ, ih]

theorem pySlice_field (n r : List Char) :
    pySlice ('{' :: (n ++ '}' :: r)) 1 (n.length + 1) = n := by
  show pySlice ('{' :: (n ++ '}' :: r)) (0 + 1) (n.length + 1) = n
  rw [pySlice_cons_succ]
  simp [pySlice, take_len_append]

theorem find_param_eq_none_left {text : List Char} {s : Nat}
    (h : findIdxFrom '{' text s = none) : find_param text s = (none, -1) := by
  simp [find_param, pyFind, h]

theorem find_param_eq_none_right {text : List Char} {s : Nat}
    (h : findIdxFrom '}' text (s + 1) = none) : find_param text s = (none, -1) := by
  cases ho : findIdxFrom '{' text s <;> simp [find_param, pyFind, ho, h]

theorem find_param_eq_some {text : List Char} {s o cl : Nat}
    (ho : findIdxFrom '{' text s = some o) (hcl : findIdxFrom '}' text (s + 1) = some cl) :
    find_param text s =
      (if cl < o then (none, -1) else (some (pySlice text (o + 1) cl), (cl : Int))) := by
  have h1 : ¬((o : Int) = -1 ∨ (cl : Int) = -1) := by omega
  simp only [find_param, pyFind, ho, hcl, if_neg h1]
  by_cases h : cl < o
  · rw [if_pos (by omega : (o : Int) > (cl : Int)), if_pos h]
  · rw [if_neg (by omega : ¬((o : Int) > (cl : Int))), if_neg h]
    simp

theorem get_parameters_loop_fuel (text : List Char) :
    ∀ (f : Nat) {g s : Nat}, text.length + 1 ≤ f + s → text.length + 1 ≤ g + s →
      get_parameters_loop text f s = get_parameters_loop text g s := by
  intro f
  induction f with
  | zero =>
    intro g s hf hg
    have hnone : findIdxFrom '{' text s = none := findIdxFrom_none_of_len (by omega)
    cases g with
    | zero => rfl
    | succ g => simp [get_parameters_loop, find_param_eq_none_left hnone]
  | succ f ih =>
    intro g s hf hg
    cases g with
    | zero =>
      have hnone : findIdxFrom '{' text s = none := findIdxFrom_none_of_len (by omega)
      simp [get_parameters_loop, find_param_eq_none_left hnone]
    | succ g =>
      simp only [get_parameters_loop]
      cases ho : findIdxFrom '{' text s with
      | none => rw [find_param_eq_none_left ho]
      | some o =>
        cases hcl : findIdxFrom '}' text (s + 1) with
        | none => rw [find_param_eq_none_right hcl]
        | some cl =>
          rw [find_param_eq_some ho hcl]
          by_cases hlt : cl < o
          · rw [if_pos hlt]
          · rw [if_neg hlt]
            have hge : s + 1 ≤ cl := findIdxFrom_some_ge hcl
            simp only [show ((cl : Int) > -1) = True by simp; omega, if_true]
            have : get_parameters_loop text f (cl : Int).toNat =
                get_parameters_loop text g (cl : Int).toNat := by
              have ht : ((cl : Int)).toNat = cl := by simp
              rw [ht]
              exact ih (by omega) (by omega)
            rw [this]

theorem get_parameters_eq_loop (text : List Char) {f : Nat} (hf : text.length + 1 ≤ f) :
    get_parameters_loop text f 0 = get_parameters text :=
  get_parameters_loop_fuel text f (by omega) (by omega)

theorem loop_stop (text : List Char) (f s : Nat)
    (h : find_param text s = (none, -1)) :
    get_parameters_loop text (f + 1) s = [] := by
  simp only [get_parameters_loop]
  rw [h]

theorem loop_step (text : List Char) (f s : Nat) {o cl : Nat}
    (ho : findIdxFrom '{' text s = some o)
    (hcl : findIdxFrom '}' text (s + 1) = some cl)
    (hle : ¬ cl < o) :
    get_parameters_loop text (f + 1) s =
      pySlice text (o + 1) cl :: get_parameters_loop text f cl := by
  simp only [get_parameters_loop]
  rw [find_param_eq_some ho hcl, if_neg hle]
  show (if ((cl : Nat) : Int) > -1
      then pySlice text (o + 1) cl :: get_parameters_loop text f (((cl : Nat) : Int)).toNat
      else []) = _
  rw [if_pos (by omega : ((cl : Nat) : Int) > -1),
    show (((cl : Nat) : Int)).toNat = cl by omega]

theorem loop_stop_of_lt (text : List Char) (f s : Nat) {o cl : Nat}
    (ho : findIdxFrom '{' text s = some o)
    (hcl : findIdxFrom '}' text (s + 1) = some cl)
    (hlt : cl < o) :
    get_parameters_loop text (f + 1) s = [] := by
  simp only [get_parameters_loop]
  rw [find_param_eq_some ho hcl, if_pos hlt]

theorem loop_append_shift (a b : List Char) :
    ∀ (f s : Nat),
      get_parameters_loop (a ++ b) f (a.length + s) = get_parameters_loop b f s := by
  intro f
  induction f with
  | zero => intro s; rfl
  | succ f ih =>
    intro s
    cases ho : findIdxFrom '{' b s with
    | none =>
      have h : findIdxFrom '{' (a ++ b) (a.length + s) = none := by
        rw [findIdxFrom_append_shift, ho]; rfl
      rw [loop_stop _ _ _ (find_param_eq_none_left h),
        loop_stop _ _ _ (find_param_eq_none_left ho)]
    | some o =>
      have ho' : findIdxFrom '{' (a ++ b) (a.length + s) = some (a.length + o) := by
        rw [findIdxFrom_append_shift, ho]; rfl
      cases hcl : findIdxFrom '}' b (s + 1) with
      | none =>
        have h : findIdxFrom '}' (a ++ b) (a.length + s + 1) = none := by
          rw [show a.length + s + 1 = a.length + (s + 1) by omega,
            findIdxFrom_append_shift, hcl]
          rfl
        rw [loop_stop _ _ _ (find_param_eq_none_right h),
          loop_stop _ _ _ (find_param_eq_none_right hcl)]
      | some cl =>
        have hcl' : findIdxFrom '}' (a ++ b) (a.length + s + 1) = some (a.length + cl) := by
          rw [show a.length + s + 1 = a.length + (s + 1) by omega,
            findIdxFrom_append_shift, hcl]
          rfl
        by_cases hlt : cl < o
        · rw [loop_stop_of_lt _ _ _ ho' hcl' (by omega), loop_stop_of_lt _ _ _ ho hcl hlt]
        · rw [loop_step _ _ _ ho' hcl' (by omega), loop_step _ _ _ ho hcl hlt,
            show a.length + o + 1 = a.length + (o + 1) by omega,
            pySlice_append_shift, ih cl]

theorem loop_cons_skip {c : Char} {rest : List Char} (hc : ¬(c = '{'))
    (hrest : rest.head? ≠ some '}') :
    ∀ f, get_parameters_loop (c :: rest) f 0 = get_parameters_loop rest f 0 := by
  intro f
  cases f with
  | zero => rfl
  | succ f =>
    have hopen : findIdxFrom '{' (c :: rest) 0 =
        (findIdxFrom '{' rest 0).map (fun i => i + 1) := by
      show (if c = '{' then some 0 else (findIdxFrom '{' rest 0).map (fun i => i + 1)) = _
      rw [if_neg hc]
    have hclose : findIdxFrom '}' (c :: rest) (0 + 1) =
        (findIdxFrom '}' rest (0 + 1)).map (fun i => i + 1) := by
      show (findIdxFrom '}' rest 0).map (fun i => i + 1) = _
      rw [findIdxFrom_head_skip hrest]
    cases ho : findIdxFrom '{' rest 0 with
    | none =>
      have h : findIdxFrom '{' (c :: rest) 0 = none := by rw [hopen, ho]; rfl
      rw [loop_stop _ _ _ (find_param_eq_none_left h),
        loop_stop _ _ _ (find_param_eq_none_left ho)]
    | some o =>
      have ho' : findIdxFrom '{' (c :: rest) 0 = some (o + 1) := by rw [hopen, ho]; rfl
      cases hcl : findIdxFrom '}' rest (0 + 1) with
      | none =>
        have h : findIdxFrom '}' (c :: rest) (0 + 1) = none := by rw [hclose, hcl]; rfl
        rw [loop_stop _ _ _ (find_param_eq_none_right h),
          loop_stop _ _ _ (find_param_eq_none_right hcl)]
      | some cl =>
        have hcl' : findIdxFrom '}' (c :: rest) (0 + 1) = some (cl + 1) := by
          rw [hclose, hcl]; rfl
        by_cases hlt : cl < o
        · rw [loop_stop_of_lt _ _ _ ho' hcl' (by omega), loop_stop_of_lt _ _ _ ho hcl hlt]
        · rw [loop_step _ _ _ ho' hcl' (by omega), loop_step _ _ _ ho hcl hlt,
            pySlice_cons_succ]
          have hshift := loop_append_shift [c] rest f cl
          simp only [List.cons_append, List.nil_append, List.length_cons,
            List.length_nil] at hshift
          rw [show cl + 1 = 0 + 1 + cl by omega, hshift]

theorem goodChunk_lit {c : Char} (h : goodChunk (Chunk.lit c) = true) :
    ¬(c = '{') ∧ ¬(c = '}') := by
  simp [goodChunk] at h
  exact h

theorem goodChunk_field {n : List Char} (h : goodChunk (Chunk.field n) = true) :
    n ≠ [] ∧ ∀ x ∈ n, ¬(nameForbidden.contains x) := by
  simp [goodChunk, List.all_eq_true] at h
  exact ⟨by
    intro hn
    rw [hn] at h
    simp at h, fun x hx => by
    have := h.2 x hx
    simp [this]⟩

theorem goodChunks_cons {k : Chunk} {ks : List Chunk} (h : goodChunks (k :: ks) = true) :
    goodChunk k = true ∧ goodChunks ks = true := by
  simp [goodChunks, List.all_cons] at h
  exact ⟨h.1, by simp [goodChunks, List.all_eq_true]; exact h.2⟩

theorem renderChunks_head {ks : List Chunk} (h : goodChunks ks = true) :
    (renderChunks ks).head? ≠ some '}' := by
  cases ks with
  | nil => simp [renderChunks]
  | cons k ks =>
    have hk : goodChunk k = true := (goodChunks_cons h).1
    cases k with
    | lit c =>
      have hc := (goodChunk_lit hk).2
      simp [renderChunks]
      exact fun hcc => hc hcc
    | field n => simp [renderChunks]

theorem name_not_rbrace {n : List Char} (hforb : ∀ x ∈ n, ¬(nameForbidden.contains x)) :
    ∀ x ∈ n, ¬(x = '}') := by
  intro x hx hxc
  have := hforb x hx
  rw [hxc] at this
  exact this (by decide)

theorem extract_render : ∀ (ks : List Chunk), goodChunks ks = true →
    get_parameters (renderChunks ks) = fieldNames ks := by
  intro ks
  induction ks with
  | nil => intro _; rfl
  | cons k ks ih =>
    intro h
    have hk : goodChunk k = true := (goodChunks_cons h).1
    have hks : goodChunks ks = true := (goodChunks_cons h).2
    cases k with
    | lit c =>
      obtain ⟨hc1, _⟩ := goodChunk_lit hk
      show get_parameters (c :: renderChunks ks) = fieldNames ks
      unfold get_parameters
      rw [show (c :: renderChunks ks).length + 1 = ((renderChunks ks).length + 1) + 1 from by
        simp [List.length_cons]]
      rw [loop_cons_skip hc1 (renderChunks_head hks)]
      rw [get_parameters_eq_loop _ (show (renderChunks ks).length + 1 ≤
        (renderChunks ks).length + 1 + 1 by omega)]
      exact ih hks
    | field n =>
      obtain ⟨hne, hforb⟩ := goodChunk_field hk
      have hnc : ∀ x ∈ n, ¬(x = '}') := name_not_rbrace hforb
      show get_parameters ('{' :: (n ++ '}' :: renderChunks ks)) = n :: fieldNames ks
      unfold get_parameters
      have ho : findIdxFrom '{' ('{' :: (n ++ '}' :: renderChunks ks)) 0 = some 0 := by
        show (if '{' = '{' then some 0
          else (findIdxFrom '{' (n ++ '}' :: renderChunks ks) 0).map (fun i => i + 1)) = some 0
        rw [if_pos rfl]
      have hcl : findIdxFrom '}' ('{' :: (n ++ '}' :: renderChunks ks)) (0 + 1) =
          some (n.length + 1) := by
        show (findIdxFrom '}' (n ++ '}' :: renderChunks ks) 0).map (fun i => i + 1) =
          some (n.length + 1)
        rw [findIdxFrom_run hnc]
        rfl
      rw [loop_step _ _ _ ho hcl (by omega)]
      rw [show (0 : Nat) + 1 = 1 from rfl, pySlice_field]
      have hassoc : ('{' :: (n ++ '}' :: renderChunks ks)) =
          ('{' :: n) ++ ('}' :: renderChunks ks) := by simp
      rw [hassoc, show n.length + 1 = ('{' :: n).length + 0 from by simp [List.length_cons]]
      rw [loop_append_shift]
      rw [loop_cons_skip (by decide) (renderChunks_head hks)]
      rw [get_parameters_eq_loop _ (show (renderChunks ks).length + 1 ≤
        (('{' :: n) ++ ('}' :: renderChunks ks)).length by
          simp [List.length_append, List.length_cons]; omega)]
      rw [ih hks]

theorem loop_eq_amended (text : List Char) :
    ∀ (f s : Nat), get_parameters_loop text f s = amended_scan text f s := by
  intro f
  induction f with
  | zero => intro s; rfl
  | succ f ih =>
    intro s
    cases ho : findIdxFrom '{' text s with
    | none =>
      rw [loop_stop _ _ _ (find_param_eq_none_left ho)]
      simp only [amended_scan, ho]
    | some o =>
      cases hcl : findIdxFrom '}' text (s + 1) with
      | none =>
        rw [loop_stop _ _ _ (find_param_eq_none_right hcl)]
        simp only [amended_scan, ho, hcl]
      | some cl =>
        by_cases hlt : cl < o
        · rw [loop_stop_of_lt _ _ _ ho hcl hlt]
          simp only [amended_scan, ho, hcl, if_pos hlt]
        · rw [loop_step _ _ _ ho hcl hlt]
          simp only [amended_scan, ho, hcl, if_neg hlt]
          rw [ih cl]

theorem name_not_lbrace {n : List Char} (hforb : ∀ x ∈ n, ¬(nameForbidden.contains x)) :
    ∀ x ∈ n, ¬(x = '{') := by
  intro x hx hxc
  have := hforb x hx
  rw [hxc] at this
  exact this (by decide)

theorem splitField_run (r : List Char) :
    ∀ (n : List Char), (∀ x ∈ n, ¬(nameForbidden.contains x)) →
      splitField (n ++ '}' :: r) = some (n, r) := by
  intro n
  induction n with
  | nil => intro _; simp [splitField]
  | cons x n ih =>
    intro h
    have hx1 : ¬(x = '}') := name_not_rbrace h x (List.mem_cons_self x n)
    have hx2 : ¬(x = '{') := name_not_lbrace h x (List.mem_cons_self x n)
    rw [List.cons_append]
    show (if x = '}' then some ([], n ++ '}' :: r)
      else if x = '{' then none
      else (splitField (n ++ '}' :: r)).map (fun p => (x :: p.1, p.2))) = some (x :: n, r)
    rw [if_neg hx1, if_neg hx2, ih (fun y hy => h y (List.mem_cons_of_mem x hy))]
    rfl

theorem namedChunk_good {k : Chunk} (h : namedChunk k = true) : goodChunk k = true := by
  cases k with
  | lit c => exact h
  | field n =>
    simp only [namedChunk, Bool.and_eq_true] at h
    exact h.1.1

theorem namedChunks_good {ks : List Chunk} (h : namedChunks ks = true) :
    goodChunks ks = true := by
  simp only [namedChunks, List.all_eq_true] at h
  simp only [goodChunks, List.all_eq_true]
  exact fun k hk => namedChunk_good (h k hk)

theorem namedChunks_cons {k : Chunk} {ks : List Chunk} (h : namedChunks (k :: ks) = true) :
    namedChunk k = true ∧ namedChunks ks = true := by
  simp only [namedChunks, List.all_cons, Bool.and_eq_true] at h
  exact ⟨h.1, by simp only [namedChunks]; exact h.2⟩

theorem namedChunk_field {n : List Char} (h : namedChunk (Chunk.field n) = true) :
    goodChunk (Chunk.field n) = true ∧ (∀ x ∈ n, x.toNat < 128) ∧
      ¬(n.all (fun c => c.isDigit) = true) := by
  simp only [namedChunk, Bool.and_eq_true] at h
  refine ⟨h.1.1, ?_, ?_⟩
  · intro x hx
    have ha := h.1.2
    rw [List.all_eq_true] at ha
    have := ha x hx
    exact of_decide_eq_true this
  · have h2 := h.2
    intro hcon
    rw [hcon] at h2
    simp at h2

theorem fieldSimple_of_named {n : List Char} (hne : n ≠ [])
    (hforb : ∀ x ∈ n, ¬(nameForbidden.contains x))
    (hascii : ∀ x ∈ n, x.toNat < 128)
    (hnd : ¬(n.all (fun c => c.isDigit) = true)) : fieldSimple n = true := by
  have h1 : n.isEmpty = false := by
    cases n with
    | nil => exact absurd rfl hne
    | cons _ _ => rfl
  have h2 : ∀ x ∈ n, (fieldExtras.contains x) = false := by
    intro x hx
    cases hcc : fieldExtras.contains x with
    | false => rfl
    | true =>
      exfalso
      apply hforb x hx
      have hmem : x ∈ fieldExtras := List.elem_iff.mp hcc
      have : x ∈ nameForbidden := by
        simp only [fieldExtras, List.mem_cons, List.not_mem_nil, or_false] at hmem
        simp only [nameForbidden, List.mem_cons, List.not_mem_nil, or_false]
        tauto
      exact List.elem_iff.mpr this
  have h3 : n.all (fun c => !(fieldExtras.contains c) && decide (c.toNat < 128)) = true := by
    rw [List.all_eq_true]
    intro x hx
    rw [h2 x hx]
    simp [hascii x hx]
  have h4 : (!(n.all (fun c => c.isDigit))) = true := by
    cases hh : n.all (fun c => c.isDigit) with
    | false => rfl
    | true => exact absurd hh hnd
  simp only [fieldSimple, h1, h3, h4, Bool.not_false, Bool.true_and, Bool.and_true,
    Bool.and_self]

theorem pyFormatGo_field_step (kw : List (List Char × List Char)) (g : Nat)
    {n : List Char} (r : List Char)
    (hne : n ≠ []) (hforb : ∀ x ∈ n, ¬(nameForbidden.contains x))
    (hascii : ∀ x ∈ n, x.toNat < 128)
    (hnd : ¬(n.all (fun c => c.isDigit) = true))
    {v : List Char} (hv : List.lookup n kw = some v) :
    pyFormatGo kw (g + 1) ('{' :: (n ++ '}' :: r)) =
      Except.map (fun t => v ++ t) (pyFormatGo kw g r) := by
  have hhead : ¬((n ++ '}' :: r).head? = some '{') := by
    cases n with
    | nil => exact absurd rfl hne
    | cons n0 n' =>
      have h0 : ¬(n0 = '{') := name_not_lbrace hforb n0 (List.mem_cons_self n0 n')
      simp only [List.cons_append, List.head?_cons]
      intro hcc
      exact h0 (Option.some.inj hcc)
  simp only [pyFormatGo, if_pos rfl, if_true, if_neg hhead, splitField_run r n hforb,
    if_neg hnd, if_pos (fieldSimple_of_named hne hforb hascii hnd), hv]

theorem format_render : ∀ (ks : List Chunk) (kw : List (List Char × List Char)) (f : Nat),
    namedChunks ks = true →
    (∀ p ∈ fieldNames ks, (List.lookup p kw).isSome = true) →
    (renderChunks ks).length < f →
    pyFormatGo kw f (renderChunks ks) = Except.ok (substChunks kw ks) := by
  intro ks
  induction ks with
  | nil =>
    intro kw f _ _ _
    cases f <;> rfl
  | cons k ks ih =>
    intro kw f h hcomp hf
    have hk := (namedChunks_cons h).1
    have hks := (namedChunks_cons h).2
    cases k with
    | lit c =>
      obtain ⟨hc1, hc2⟩ := goodChunk_lit (namedChunk_good hk)
      have hlen : (renderChunks (Chunk.lit c :: ks)).length = (renderChunks ks).length + 1 := by
        simp [renderChunks, List.length_cons]
      obtain ⟨g, rfl⟩ : ∃ g, f = g + 1 := ⟨f - 1, by omega⟩
      show pyFormatGo kw (g + 1) (c :: renderChunks ks) =
        Except.ok (c :: substChunks kw ks)
      simp only [pyFormatGo, if_neg hc1, if_neg hc2]
      rw [ih kw g hks (fun p hp => hcomp p (by
        show p ∈ fieldNames (Chunk.lit c :: ks)
        simp only [fieldNames]
        exact hp)) (by rw [hlen] at hf; omega)]
      rfl
    | field n =>
      obtain ⟨hgf, hascii, hnd⟩ := namedChunk_field hk
      obtain ⟨hne, hforb⟩ := goodChunk_field hgf
      have hlen : (renderChunks (Chunk.field n :: ks)).length =
          n.length + 2 + (renderChunks ks).length := by
        simp [renderChunks, List.length_cons, List.length_append]
        omega
      obtain ⟨g, rfl⟩ : ∃ g, f = g + 1 := ⟨f - 1, by omega⟩
      have hsome := hcomp n (by
        show n ∈ fieldNames (Chunk.field n :: ks)
        simp only [fieldNames]
        exact List.mem_cons_self n _)
      obtain ⟨v, hv⟩ := Option.isSome_iff_exists.mp hsome
      show pyFormatGo kw (g + 1) ('{' :: (n ++ '}' :: renderChunks ks)) =
        Except.ok ((List.lookup n kw).getD [] ++ substChunks kw ks)
      rw [pyFormatGo_field_step kw g (renderChunks ks) hne hforb hascii hnd hv]
      rw [ih kw g hks (fun p hp => hcomp p (by
        show p ∈ fieldNames (Chunk.field n :: ks)
        simp only [fieldNames]
        exact List.mem_cons_of_mem n hp)) (by rw [hlen] at hf; omega)]
      rw [hv]
      rfl

theorem is_parameterized_of_ne {l : Locator} (hp : l.parameters ≠ []) :
    l.is_parameterized = true := by
  simp only [Locator.is_parameterized, decide_eq_true_eq]
  exact List.length_pos.mpr hp

theorem get_by_of_valid {l : Locator} {kw : List (List Char × List Char)}
    (hp : l.parameters ≠ [])
    (hkw : ¬(kw.length = 0))
    (hval : l.validate_parameters kw = none) :
    l.get_by kw = Except.map (fun v => (l.strategy.value, v))
      (Except.mapError GetByError.formatError (pyFormat l.value kw)) := by
  unfold Locator.get_by Locator.get_value
  rw [if_pos (is_parameterized_of_ne hp)]
  simp only [Locator.parameterize_value, if_neg hkw, hval]

theorem lookup_filter_keep (p : List Char → Bool) :
    ∀ (l : List (List Char × List Char)) (a : List Char), p a = true →
      List.lookup a (l.filter (fun kv => p kv.1)) = List.lookup a l := by
  intro l
  induction l with
  | nil => intro a _; rfl
  | cons kv l ih =>
    intro a ha
    obtain ⟨k, v⟩ := kv
    by_cases hkv : p k = true
    · rw [List.filter_cons_of_pos (by simpa using hkv)]
      cases hba : (a == k) with
      | true => simp only [List.lookup, hba]
      | false =>
        simp only [List.lookup, hba]
        exact ih a ha
    · rw [List.filter_cons_of_neg (by simpa using hkv)]
      have hba : (a == k) = false := by
        cases hba : (a == k) with
        | false => rfl
        | true =>
          exfalso
          have hak : a = k := eq_of_beq hba
          rw [← hak] at hkv
          exact hkv ha
      simp only [List.lookup, hba]
      exact ih a ha

theorem substChunks_congr : ∀ (ks : List Chunk) (kw kw' : List (List Char × List Char)),
    (∀ n ∈ fieldNames ks, List.lookup n kw' = List.lookup n kw) →
    substChunks kw' ks = substChunks kw ks := by
  intro ks
  induction ks with
  | nil => intro kw kw' _; rfl
  | cons k ks ih =>
    intro kw kw' h
    cases k with
    | lit c =>
      show c :: substChunks kw' ks = c :: substChunks kw ks
      rw [ih kw kw' (fun n hn => h n (by
        show n ∈ fieldNames (Chunk.lit c :: ks)
        simp only [fieldNames]
        exact hn))]
    | field n =>
      show (List.lookup n kw').getD [] ++ substChunks kw' ks =
        (List.lookup n kw).getD [] ++ substChunks kw ks
      rw [h n (by
        show n ∈ fieldNames (Chunk.field n :: ks)
        simp only [fieldNames]
        exact List.mem_cons_self n _)]
      rw [ih kw kw' (fun m hm => h m (by
        show m ∈ fieldNames (Chunk.field n :: ks)
        simp only [fieldNames]
        exact List.mem_cons_of_mem n hm))]

theorem get_by_render_ok (ks : List Chunk) (u : Using)
    (kw : List (List Char × List Char))
    (hgood : namedChunks ks = true)
    (hp : (Locator.mk u (renderChunks ks)).parameters ≠ [])
    (hcomp : ∀ p ∈ (Locator.mk u (renderChunks ks)).parameters,
      (List.lookup p kw).isSome = true) :
    (Locator.mk u (renderChunks ks)).get_by kw =
      Except.ok (u.value, substChunks kw ks) := by
  have hparams : (Locator.mk u (renderChunks ks)).parameters = fieldNames ks :=
    extract_render ks (namedChunks_good hgood)
  have hkw : ¬(kw.length = 0) := by
    intro hlen
    obtain ⟨q, hq⟩ := List.exists_mem_of_ne_nil _ hp
    have hqq := hcomp q hq
    rw [List.length_eq_zero.mp hlen] at hqq
    simp [List.lookup] at hqq
  have hval : (Locator.mk u (renderChunks ks)).validate_parameters kw = none := by
    unfold Locator.validate_parameters
    rw [List.find?_eq_none]
    intro q hq
    intro hcon
    have h2 := hcomp q hq
    rw [Option.isNone_iff_eq_none] at hcon
    rw [hcon] at h2
    simp at h2
  rw [get_by_of_valid hp hkw hval]
  show Except.map (fun v => (u.value, v))
    (Except.mapError GetByError.formatError (pyFormat (renderChunks ks) kw)) = _
  unfold pyFormat
  rw [format_render ks kw ((renderChunks ks).length + 1) hgood
    (by rw [← hparams]; exact hcomp) (by omega)]
  rfl

/-- C1: counterexample.  On `'{a}}{b}'` the source's `get_parameters` yields
only `['a']`: after emitting `a` it restarts at the position of the closing
brace, so the immediately following second `'}'` is seen before the `'{'` of
`b` and the scan stops.  The spec's algorithm, whose cursor advances to just
past the closing brace, emits `['a', 'b']`.  So `get_parameters` does not
return the sequence produced by the spec's stated algorithm. -/
theorem c1_spec_algorithm_counterexample :
    get_parameters ['{', 'a', '}', '}', '{', 'b', '}'] ≠
      spec_extract ['{', 'a', '}', '}', '{', 'b', '}'] := by
  decide

/-- C1 (amended): for every input string, `get_parameters` returns exactly
the sequence produced by the spec's algorithm once the cursor-advance rule is
amended: after emitting a name the cursor moves to the position of the
closing brace itself (not just past it), the next opening brace is sought at
or after the cursor and the next closing brace strictly after it. -/
theorem c1_extraction_amended :
    ∀ text : List Char, get_parameters text = amended_extract text :=
  fun text => loop_eq_amended text (text.length + 1) 0

/-- C2: counterexample.  With `default_timeout = 5`, an explicitly supplied
`timeout = 0` is discarded and the default 5 is used (Python truthiness in
`t = timeout if timeout else self.default_timeout`), so `find_element` does
not pass every explicitly supplied timeout to the wait call. -/
theorem c2_zero_timeout_counterexample :
    (FluentFinder.find_element ⟨5⟩ (['x'], ['y']) (some 0)
      (some (ECCondition.custom 7))).timeout = 5 ∧
    ¬((FluentFinder.find_element ⟨5⟩ (['x'], ['y']) (some 0)
      (some (ECCondition.custom 7))).timeout = 0) := by
  decide

/-- C2 (amended): for every locator tuple, every explicitly supplied nonzero
timeout and every explicitly supplied condition, `find_element` and
`find_elements` pass exactly the supplied timeout and condition to the wait
call rather than the component defaults. -/
theorem c2_override_passthrough (f : FluentFinder) (lt : List Char × List Char)
    (t : Int) (ht : ¬(t = 0)) (c : ECCondition) :
    f.find_element lt (some t) (some c) = ⟨t, c, lt⟩ ∧
    f.find_elements lt (some t) (some c) = ⟨t, c, lt⟩ := by
  constructor
  · show WDWaitCall.mk (if t = 0 then f.default_timeout else t) c lt = ⟨t, c, lt⟩
    rw [if_neg ht]
  · show WDWaitCall.mk (if t = 0 then f.default_timeout else t) c lt = ⟨t, c, lt⟩
    rw [if_neg ht]

theorem c2_override_passthrough_witness :
    ¬((3 : Int) = 0) ∧
    (FluentFinder.find_element ⟨5⟩ (['x'], ['y']) (some 3) (some (ECCondition.custom 7)) =
        ⟨3, ECCondition.custom 7, (['x'], ['y'])⟩ ∧
      FluentFinder.find_elements ⟨5⟩ (['x'], ['y']) (some 3) (some (ECCondition.custom 7)) =
        ⟨3, ECCondition.custom 7, (['x'], ['y'])⟩) :=
  ⟨by decide, c2_override_passthrough ⟨5⟩ (['x'], ['y']) 3 (by decide) (ECCondition.custom 7)⟩

/-- C3: for every locator whose template has at least one extracted
placeholder, `get_by` with zero keyword substitutions raises the
`MissingArgument` `ValueError` whose message enumerates all extracted
parameter names (`self.parameters`). -/
theorem c3_zero_kwargs_error (l : Locator) (hp : l.parameters ≠ []) :
    l.get_by [] = Except.error (GetByError.missingArguments l.parameters) := by
  unfold Locator.get_by Locator.get_value
  rw [if_pos (is_parameterized_of_ne hp)]
  show Except.map (fun v => (l.strategy.value, v)) (l.parameterize_value []) = _
  unfold Locator.parameterize_value
  rw [if_pos (show ([] : List (List Char × List Char)).length = 0 from rfl)]
  rfl

theorem c3_zero_kwargs_error_witness :
    (Locator.mk Using.XPATH ['{', 'a', '}']).parameters ≠ [] ∧
    (Locator.mk Using.XPATH ['{', 'a', '}']).get_by [] =
      Except.error (GetByError.missingArguments
        (Locator.mk Using.XPATH ['{', 'a', '}']).parameters) :=
  ⟨by decide, c3_zero_kwargs_error _ (by decide)⟩

/-- C4: for every locator and every non-empty but incomplete keyword
substitution set, `get_by` raises the `MissingArgument` `ValueError` naming
exactly the first absent parameter in the extracted parameter order (the
first entry of `self.parameters` whose key is not among the kwargs). -/
theorem c4_first_missing_error (l : Locator) (kw : List (List Char × List Char))
    (p : List Char) (hkw : ¬(kw.length = 0))
    (hfind : l.parameters.find? (fun q => (List.lookup q kw).isNone) = some p) :
    l.get_by kw = Except.error (GetByError.missingArgument p) := by
  have hp : l.parameters ≠ [] := by
    intro h
    rw [h] at hfind
    simp at hfind
  unfold Locator.get_by Locator.get_value
  rw [if_pos (is_parameterized_of_ne hp)]
  show Except.map (fun v => (l.strategy.value, v)) (l.parameterize_value kw) = _
  unfold Locator.parameterize_value Locator.validate_parameters
  rw [if_neg hkw, hfind]
  rfl

theorem c4_first_missing_error_witness :
    ¬(([(['a'], ['v'])] : List (List Char × List Char)).length = 0) ∧
    (Locator.mk Using.XPATH ['{', 'a', '}', '{', 'b', '}']).parameters.find?
      (fun q => (List.lookup q [(['a'], ['v'])]).isNone) = some ['b'] ∧
    (Locator.mk Using.XPATH ['{', 'a', '}', '{', 'b', '}']).get_by [(['a'], ['v'])] =
      Except.error (GetByError.missingArgument ['b']) :=
  ⟨by decide, by decide, c4_first_missing_error _ _ _ (by decide) (by decide)⟩

/-- C5: counterexample.  The template `'{a}}'` has the single extracted
placeholder `a`, and the substitution set containing `a` is complete; yet
`get_by` does not return the literally substituted string: `str.format`
raises a `ValueError` on the trailing lone closing brace. -/
theorem c5_literal_substitution_counterexample :
    (Locator.mk Using.XPATH ['{', 'a', '}', '}']).parameters = [['a']] ∧
    (∀ p ∈ (Locator.mk Using.XPATH ['{', 'a', '}', '}']).parameters,
      (List.lookup p [(['a'], ['v'])]).isSome = true) ∧
    (Locator.mk Using.XPATH ['{', 'a', '}', '}']).get_by [(['a'], ['v'])] =
      Except.error (GetByError.formatError PyFormatError.singleRbrace) := by
  decide

/-- C5 (amended): for every locator whose template is a well-formed
alternation of non-brace literals and simple brace-delimited fields whose
names are plain ASCII keywords — nonempty, free of format mini-language
syntax, and not made of digits only (an all-digit name is a positional
index for `str.format` and raises IndexError) — with at least one extracted
placeholder, and every complete keyword substitution set, `get_by` returns
the strategy string paired with the template in which each placeholder
occurrence is literally replaced by the corresponding value. -/
theorem c5_literal_substitution (ks : List Chunk) (u : Using)
    (kw : List (List Char × List Char))
    (hgood : namedChunks ks = true)
    (hp : (Locator.mk u (renderChunks ks)).parameters ≠ [])
    (hcomp : ∀ p ∈ (Locator.mk u (renderChunks ks)).parameters,
      (List.lookup p kw).isSome = true) :
    (Locator.mk u (renderChunks ks)).get_by kw =
      Except.ok (u.value, substChunks kw ks) :=
  get_by_render_ok ks u kw hgood hp hcomp

theorem c5_literal_substitution_witness :
    namedChunks [Chunk.field ['a'], Chunk.lit '!'] = true ∧
    (Locator.mk Using.XPATH (renderChunks [Chunk.field ['a'], Chunk.lit '!'])).parameters ≠ [] ∧
    (∀ p ∈ (Locator.mk Using.XPATH (renderChunks [Chunk.field ['a'], Chunk.lit '!'])).parameters,
      (List.lookup p [(['a'], ['v'])]).isSome = true) ∧
    (Locator.mk Using.XPATH (renderChunks [Chunk.field ['a'], Chunk.lit '!'])).get_by
        [(['a'], ['v'])] =
      Except.ok (Using.XPATH.value,
        substChunks [(['a'], ['v'])] [Chunk.field ['a'], Chunk.lit '!']) :=
  ⟨by decide, by decide, by decide,
    c5_literal_substitution _ _ _ (by decide) (by decide) (by decide)⟩

/-- C6: for every locator whose template has zero extracted placeholders and
every keyword substitution set, `get_by` returns the template unchanged as
the resolved value, paired with the strategy string. -/
theorem c6_unparameterized_identity (l : Locator) (kw : List (List Char × List Char))
    (hp : l.parameters = []) :
    l.get_by kw = Except.ok (l.strategy.value, l.value) := by
  have hnp : ¬(l.is_parameterized = true) := by
    simp [Locator.is_parameterized, hp]
  unfold Locator.get_by Locator.get_value
  rw [if_neg hnp]
  rfl

theorem c6_unparameterized_identity_witness :
    (Locator.mk Using.CSS ['b', 'u', 't', 't', 'o', 'n']).parameters = [] ∧
    (Locator.mk Using.CSS ['b', 'u', 't', 't', 'o', 'n']).get_by [(['x'], ['y'])] =
      Except.ok (Using.CSS.value, ['b', 'u', 't', 't', 'o', 'n']) :=
  ⟨by decide, c6_unparameterized_identity _ _ (by decide)⟩

/-- C7: extraction does not deduplicate repeated placeholder names — on every
well-formed template it returns one name per field occurrence in order, with
multiplicity — and on the template `'{a}-{a}'` the two occurrences are
substituted independently by `get_by` for every value. -/
theorem c7_no_deduplication :
    (∀ ks : List Chunk, goodChunks ks = true →
      get_parameters (renderChunks ks) = fieldNames ks) ∧
    get_parameters ['{', 'a', '}', '-', '{', 'a', '}'] = [['a'], ['a']] ∧
    (∀ v : List Char,
      (Locator.mk Using.XPATH ['{', 'a', '}', '-', '{', 'a', '}']).get_by [(['a'], v)] =
        Except.ok (Using.XPATH.value, v ++ '-' :: v)) := by
  refine ⟨extract_render, by decide, ?_⟩
  intro v
  have h : (Locator.mk Using.XPATH ['{', 'a', '}', '-', '{', 'a', '}']).get_by [(['a'], v)] =
      Except.ok (Using.XPATH.value, v ++ '-' :: (v ++ [])) := rfl
  rw [h]
  simp

theorem c7_no_deduplication_witness :
    goodChunks [Chunk.field ['a'], Chunk.lit '-', Chunk.field ['a']] = true ∧
    get_parameters (renderChunks [Chunk.field ['a'], Chunk.lit '-', Chunk.field ['a']]) =
      fieldNames [Chunk.field ['a'], Chunk.lit '-', Chunk.field ['a']] :=
  ⟨by decide, c7_no_deduplication.1 _ (by decide)⟩

/-- C8: when neither timeout nor condition is supplied, both finder methods
invoke the wait call with the finder's default timeout and the default
condition for the call's cardinality: element-present for `find_element` and
all-elements-present for `find_elements`. -/
theorem c8_default_condition_timeout (f : FluentFinder) (lt : List Char × List Char) :
    f.find_element lt none none =
      ⟨f.default_timeout, ECCondition.presence_of_element_located, lt⟩ ∧
    f.find_elements lt none none =
      ⟨f.default_timeout, ECCondition.presence_of_all_elements_located, lt⟩ :=
  ⟨rfl, rfl⟩

/-- C9: on every string the extraction loop terminates — any fuel of at
least `length + 1` yields the loop's exit value — and unbalanced braces are
handled without raising: a string lacking an opening or a closing brace
yields `[]`; in particular `'{foo'` yields `[]`, and a malformed remainder
after a well-formed pair is silently dropped. -/
theorem c9_unbalanced_braces :
    (∀ (text : List Char) (f : Nat), text.length + 1 ≤ f →
      get_parameters_loop text f 0 = get_parameters text) ∧
    (∀ text : List Char, '{' ∉ text → get_parameters text = []) ∧
    (∀ text : List Char, '}' ∉ text → get_parameters text = []) ∧
    get_parameters ['{', 'f', 'o', 'o'] = [] ∧
    get_parameters ['{', 'a', '}', '{', 'f', 'o', 'o'] = [['a']] := by
  refine ⟨fun text f hf => get_parameters_eq_loop text hf, ?_, ?_, by decide, by decide⟩
  · intro text h
    exact loop_stop text text.length 0 (find_param_eq_none_left (findIdxFrom_not_mem h 0))
  · intro text h
    exact loop_stop text text.length 0 (find_param_eq_none_right (findIdxFrom_not_mem h 1))

theorem c9_unbalanced_braces_witness :
    ((['{', 'f', 'o', 'o'] : List Char).length + 1 ≤ 9 ∧
      get_parameters_loop ['{', 'f', 'o', 'o'] 9 0 = get_parameters ['{', 'f', 'o', 'o']) ∧
    ('{' ∉ (['a', 'b'] : List Char) ∧ get_parameters ['a', 'b'] = []) ∧
    ('}' ∉ (['{', 'f', 'o', 'o'] : List Char) ∧ get_parameters ['{', 'f', 'o', 'o'] = []) :=
  ⟨⟨by decide, c9_unbalanced_braces.1 _ 9 (by decide)⟩,
    ⟨by decide, c9_unbalanced_braces.2.1 _ (by decide)⟩,
    ⟨by decide, c9_unbalanced_braces.2.2.1 _ (by decide)⟩⟩

/-- C10: counterexample.  For the template `'{a}}'` and a keyword set that is
a strict superset of the extracted parameters, `get_by` still raises:
validation passes, but `str.format` raises a `ValueError` on the trailing
lone closing brace.  So a strict superset of substitutions does not
guarantee the absence of an exception. -/
theorem c10_superset_counterexample :
    (Locator.mk Using.XPATH ['{', 'a', '}', '}']).parameters = [['a']] ∧
    (∀ p ∈ (Locator.mk Using.XPATH ['{', 'a', '}', '}']).parameters,
      (List.lookup p [(['a'], ['v']), (['z'], ['w'])]).isSome = true) ∧
    (∃ kv ∈ ([(['a'], ['v']), (['z'], ['w'])] : List (List Char × List Char)),
      kv.1 ∉ (Locator.mk Using.XPATH ['{', 'a', '}', '}']).parameters) ∧
    (Locator.mk Using.XPATH ['{', 'a', '}', '}']).get_by
        [(['a'], ['v']), (['z'], ['w'])] =
      Except.error (GetByError.formatError PyFormatError.singleRbrace) := by
  decide

/-- C10 (amended): for every locator whose template is a well-formed
alternation of non-brace literals and simple fields whose names are plain
ASCII keywords — nonempty, free of format mini-language syntax, and not
made of digits only (an all-digit name is a positional index for
`str.format` and raises IndexError) — with at least one extracted
placeholder, any keyword set containing all required parameters — extras
allowed — does not raise: validation only checks that each extracted name
is present, and the extra substitutions are ignored: the resolved string
equals the one computed from the kwargs restricted to the extracted
names. -/
theorem c10_superset_ok (ks : List Chunk) (u : Using)
    (kw : List (List Char × List Char))
    (hgood : namedChunks ks = true)
    (hp : (Locator.mk u (renderChunks ks)).parameters ≠ [])
    (hcomp : ∀ p ∈ (Locator.mk u (renderChunks ks)).parameters,
      (List.lookup p kw).isSome = true) :
    (Locator.mk u (renderChunks ks)).get_by kw =
      Except.ok (u.value, substChunks kw ks) ∧
    substChunks kw ks =
      substChunks (kw.filter (fun kv => (fieldNames ks).contains kv.1)) ks := by
  refine ⟨get_by_render_ok ks u kw hgood hp hcomp, ?_⟩
  exact (substChunks_congr ks kw (kw.filter (fun kv => (fieldNames ks).contains kv.1))
    (fun n hn => lookup_filter_keep (fieldNames ks).contains kw n
      (List.elem_iff.mpr hn))).symm

theorem c10_superset_ok_witness :
    namedChunks [Chunk.field ['a']] = true ∧
    (Locator.mk Using.XPATH (renderChunks [Chunk.field ['a']])).parameters ≠ [] ∧
    (∀ p ∈ (Locator.mk Using.XPATH (renderChunks [Chunk.field ['a']])).parameters,
      (List.lookup p [(['a'], ['v']), (['z'], ['w'])]).isSome = true) ∧
    ((Locator.mk Using.XPATH (renderChunks [Chunk.field ['a']])).get_by
        [(['a'], ['v']), (['z'], ['w'])] =
      Except.ok (Using.XPATH.value,
        substChunks [(['a'], ['v']), (['z'], ['w'])] [Chunk.field ['a']]) ∧
    substChunks [(['a'], ['v']), (['z'], ['w'])] [Chunk.field ['a']] =
      substChunks (([(['a'], ['v']), (['z'], ['w'])] : List (List Char × List Char)).filter
        (fun kv => (fieldNames [Chunk.field ['a']]).contains kv.1)) [Chunk.field ['a']]) :=
  ⟨by decide, by decide, by decide,
    c10_superset_ok _ _ _ (by decide) (by decide) (by decide)⟩
